import Mathlib

/-!
Shallow embedding of the OCEL extraction core of `rust-slurm`
(`src/app/src-tauri/src/lib.rs`): the snapshot-mode extractor
`extract_ocel` and the delta-replay extractor `extract_oced_delta`,
together with the data model they operate on.  Timestamps are embedded
as integers; `eprintln!` diagnostics are embedded as an explicit list of
warnings; panics (`unwrap` / failed `assert`) are embedded as `none`
results of `Option`-valued functions.
-/

namespace RustSlurm

/-- Lifecycle state of a job.  Modelled from the spec: the `JobState`
enum lives in the `rust_slurm` crate, which is not among the provided
sources; the spec's LifecycleState lists exactly these arms, and the
`match` in `extract_oced_delta` confirms them. -/
inductive JobState where
  | PENDING
  | RUNNING
  | COMPLETING
  | COMPLETED
  | CANCELLED
  | FAILED
  | TIMEOUT
  | OUT_OF_MEMORY
  | OTHER (label : String)
deriving DecidableEq

/-- One observation row of the queue.  Modelled from the spec: the
`SqueueRow` struct lives in the `rust_slurm` crate, which is not among
the provided sources; its fields are those named by the spec's
JobObservation plus the extra fields witnessed by the `Diff` arms
matched in `extract_oced_delta`.  Times are embedded as `Int`. -/
structure SqueueRow where
  job_id : String
  command : String
  work_dir : String
  cpus : Nat
  min_cpus : Nat
  nodes : String
  min_memory : String
  submit_time : Int
  start_time : Option Int
  end_time : Option Int
  state : JobState
  account : String
  group : String
  partition : String
  exec_host : Option String
  dependency : Option String
  features : Option String
  array_job_id : Option String
  step_job_id : Option String
  time_limit : Option Int
  name : String
  priority : Nat
  reason : Option String
deriving DecidableEq

/-- A field-level delta, one constructor per field of `SqueueRow`.
Modelled from the spec: the concrete type is `<SqueueRow as
StructDiff>::Diff`, derived in the `rust_slurm` crate; the arms are
exactly those matched in `extract_oced_delta`. -/
inductive Diff where
  | command (c : String)
  | work_dir (w : String)
  | min_memory (m : String)
  | exec_host (h : Option String)
  | account (a : String)
  | state (s : JobState)
  | group (g : String)
  | partition (p : String)
  | job_id (j : String)
  | min_cpus (n : Nat)
  | cpus (n : Nat)
  | nodes (n : String)
  | end_time (t : Option Int)
  | dependency (d : Option String)
  | features (f : Option String)
  | array_job_id (a : Option String)
  | step_job_id (s : Option String)
  | time_limit (t : Option Int)
  | name (n : String)
  | priority (p : Nat)
  | reason (r : Option String)
  | start_time (t : Option Int)
  | submit_time (t : Int)
deriving DecidableEq

/-- Applying a single field-level delta to a row (the per-field action
of `StructDiff::apply_mut`): the named field is overwritten, all other
fields are unchanged. -/
def applyDiff (r : SqueueRow) : Diff → SqueueRow
  | .command c => { r with command := c }
  | .work_dir w => { r with work_dir := w }
  | .min_memory m => { r with min_memory := m }
  | .exec_host h => { r with exec_host := h }
  | .account a => { r with account := a }
  | .state s => { r with state := s }
  | .group g => { r with group := g }
  | .partition p => { r with partition := p }
  | .job_id j => { r with job_id := j }
  | .min_cpus n => { r with min_cpus := n }
  | .cpus n => { r with cpus := n }
  | .nodes n => { r with nodes := n }
  | .end_time t => { r with end_time := t }
  | .dependency d => { r with dependency := d }
  | .features f => { r with features := f }
  | .array_job_id a => { r with array_job_id := a }
  | .step_job_id s => { r with step_job_id := s }
  | .time_limit t => { r with time_limit := t }
  | .name n => { r with name := n }
  | .priority p => { r with priority := p }
  | .reason rr => { r with reason := rr }
  | .start_time t => { r with start_time := t }
  | .submit_time t => { r with submit_time := t }

/-- `row.apply_mut(delta)`: apply every field change of the delta. -/
def apply_mut (r : SqueueRow) (delta : List Diff) : SqueueRow :=
  delta.foldl applyDiff r

/-- An OCEL event-to-object relationship (`OCELRelationship`). -/
structure OCELRelationship where
  objectId : String
  qualifier : String
deriving DecidableEq

/-- An OCEL event (`OCELEvent`).  Both extraction paths always pass an
empty attribute vector to `OCELEvent::new`, so attributes are omitted. -/
structure OCELEvent where
  id : String
  event_type : String
  time : Int
  relationships : List OCELRelationship
deriving DecidableEq

/-- A time-stamped OCEL object attribute (`OCELObjectAttribute`); the
value is embedded as its string rendering. -/
structure OCELObjectAttribute where
  name : String
  value : String
  time : Int
deriving DecidableEq

/-- An OCEL object (`OCELObject`). -/
structure OCELObject where
  id : String
  object_type : String
  attributes : List OCELObjectAttribute
  relationships : List OCELRelationship
deriving DecidableEq

/-- A diagnostic emitted with `eprintln!` during delta replay. -/
inductive Warning where
  | backwards (job_id : String) (last_dt dt : Int)
  | toPending (job_id : String)
  | toOther (job_id : String) (label : String)
deriving DecidableEq

/-- Insertion into a `HashSet`, embedded as an order-preserving
duplicate-free list. -/
def insertSet (s : List String) (a : String) : List String :=
  if a ∈ s then s else s ++ [a]

/-- Rust `Debug` rendering of a `JobState`, used for the `state`
object attribute (`format!` with the debug formatter). -/
def stateDebug : JobState → String
  | .PENDING => "PENDING"
  | .RUNNING => "RUNNING"
  | .COMPLETING => "COMPLETING"
  | .COMPLETED => "COMPLETED"
  | .CANCELLED => "CANCELLED"
  | .FAILED => "FAILED"
  | .TIMEOUT => "TIMEOUT"
  | .OUT_OF_MEMORY => "OUT_OF_MEMORY"
  | .OTHER lbl => "OTHER(\"" ++ lbl ++ "\")"

/-- Scan for the segment after the last slash, the last element of a
split on the slash character. -/
def basenameAux : List Char → List Char → List Char
  | [], acc => acc.reverse
  | ch :: rest, acc =>
    if ch = '/' then basenameAux rest [] else basenameAux rest (ch :: acc)

/-- `r.command.split("/").last().unwrap_or_default()`. -/
def basename (c : String) : String :=
  String.mk (basenameAux c.data [])

/-- The run-wide accumulator of `extract_oced_delta`: the OCEL under
construction, the warning stream, and the entity `HashSet`s. -/
structure ExtractAcc where
  events : List OCELEvent
  objects : List OCELObject
  warnings : List Warning
  accounts : List String
  groups : List String
  partitions : List String
  hosts : List String
deriving DecidableEq

/-- The per-job state threaded through replay of one job's delta files:
the run accumulator, the materialized row, the pending Started event
(`start_ev`), and the timestamp of the last applied file (`last_dt`). -/
structure DeltaAcc where
  acc : ExtractAcc
  row : SqueueRow
  start_ev : Option OCELEvent
  last_dt : Int
deriving DecidableEq

/-- Push one event onto the OCEL under construction. -/
def pushEv (s : DeltaAcc) (e : OCELEvent) : DeltaAcc :=
  { s with acc := { s.acc with events := s.acc.events ++ [e] } }

/-- Record one warning. -/
def addWarn (s : DeltaAcc) (w : Warning) : DeltaAcc :=
  { s with acc := { s.acc with warnings := s.acc.warnings ++ [w] } }

/-- The body of the `for df in delta` match in `extract_oced_delta`:
the reaction to a single field-level delta.  `s.row` already holds the
row AFTER `apply_mut` of the whole delta file, exactly as in the
source, where `row.apply_mut(delta.clone())` precedes the loop. -/
def processDiff (oid : String) (dt : Int) (s : DeltaAcc) : Diff → DeltaAcc
  | .command _ => s
  | .work_dir _ => s
  | .min_memory _ => s
  | .exec_host h =>
    match h with
    | some hn => { s with acc := { s.acc with hosts := insertSet s.acc.hosts hn } }
    | none => s
  | .account a => { s with acc := { s.acc with accounts := insertSet s.acc.accounts a } }
  | .state st =>
    let n := s.acc.events.length
    match st with
    | .RUNNING => s
    | .COMPLETING =>
      pushEv s ⟨"ending-_" ++ oid ++ "-" ++ toString n, "Job Ending", dt, [⟨oid, "job"⟩]⟩
    | .COMPLETED =>
      pushEv s ⟨"ended-_" ++ oid ++ "-" ++ toString n, "Job Completed", dt, [⟨oid, "job"⟩]⟩
    | .CANCELLED =>
      pushEv s ⟨"cancelled-_" ++ oid ++ "-" ++ toString n, "Job Cancelled", dt, [⟨oid, "job"⟩]⟩
    | .FAILED =>
      pushEv s ⟨"failed-_" ++ oid ++ "-" ++ toString n, "Job Failed", dt, [⟨oid, "job"⟩]⟩
    | .TIMEOUT =>
      pushEv s ⟨"timeout-_" ++ oid ++ "-" ++ toString n, "Job Timeout", dt, [⟨oid, "job"⟩]⟩
    | .OUT_OF_MEMORY =>
      pushEv s ⟨"oom-_" ++ oid ++ "-" ++ toString n, "Job Out Of Memory", dt, [⟨oid, "job"⟩]⟩
    | .PENDING => addWarn s (.toPending oid)
    | .OTHER lbl => addWarn s (.toOther oid lbl)
  | .group g => { s with acc := { s.acc with groups := insertSet s.acc.groups g } }
  | .partition p => { s with acc := { s.acc with partitions := insertSet s.acc.partitions p } }
  | .job_id _ => s
  | .min_cpus _ => s
  | .cpus _ => s
  | .nodes _ => s
  | .end_time _ => s
  | .dependency _ => s
  | .features _ => s
  | .array_job_id _ => s
  | .step_job_id _ => s
  | .time_limit _ => s
  | .name _ => s
  | .priority _ => s
  | .reason _ => s
  | .start_time st =>
    if s.row.state = JobState.PENDING then s
    else
      match st with
      | some t =>
        match s.start_ev with
        | some e => { s with start_ev := some { e with time := t } }
        | none =>
          { s with start_ev := some ⟨"start-" ++ oid ++ "-" ++ toString s.acc.events.length,
              "Job Started", t, [⟨oid, "job"⟩]⟩ }
      | none => s
  | .submit_time _ => s

/-- Replay of one delta file `(dt, delta)` for the job with object id
`oid`: warn on a backwards timestamp, apply the whole delta to the row,
then react to each field-level change. -/
def processEntry (oid : String) (s : DeltaAcc) (entry : Int × List Diff) : DeltaAcc :=
  let dt := entry.1
  let delta := entry.2
  let ws :=
    if s.last_dt > dt then s.acc.warnings ++ [Warning.backwards oid s.last_dt dt]
    else s.acc.warnings
  let s' : DeltaAcc :=
    { acc := { s.acc with warnings := ws }, row := apply_mut s.row delta,
      start_ev := s.start_ev, last_dt := dt }
  delta.foldl (processDiff oid dt) s'

/-- The files found for one job: the first file (the base snapshot,
with its timestamp and its parse result, `none` on a malformed file)
and the remaining `DELTA-` files in order. -/
structure JobFiles where
  first : Option (Int × Option SqueueRow)
  deltas : List (Int × List Diff)
deriving DecidableEq

/-- The Job object built from the base snapshot row. -/
def jobObject (dt : Int) (row : SqueueRow) : OCELObject :=
  let o : OCELObject :=
    { id := row.job_id
      object_type := "Job"
      attributes := [⟨"command", basename row.command, 0⟩,
        ⟨"work_dir", row.work_dir, 0⟩,
        ⟨"cpus", toString row.cpus, 0⟩,
        ⟨"min_memory", row.min_memory, 0⟩,
        ⟨"state", stateDebug row.state, dt⟩]
      relationships := [⟨"acc_" ++ row.account, "submitted by"⟩,
        ⟨"group_" ++ row.group, "submitted by group"⟩,
        ⟨"part_" ++ row.partition, "submitted on"⟩] }
  match row.exec_host with
  | some h => { o with relationships := o.relationships ++ [⟨"host_" ++ h, "executed on"⟩] }
  | none => o

/-- Registration of the base snapshot's entities into the run-wide
`HashSet`s (the host is inserted twice in the source, at lines 484-486
and 512-517; set insertion is idempotent). -/
def jobEntitySets (acc : ExtractAcc) (row : SqueueRow) : ExtractAcc :=
  { acc with
    accounts := insertSet acc.accounts row.account
    groups := insertSet acc.groups row.group
    partitions := insertSet acc.partitions row.partition
    hosts := match row.exec_host with
      | some h => insertSet (insertSet acc.hosts h) h
      | none => acc.hosts }

/-- The Submit Job event of one job, with the global event count `n`
embedded in its identifier. -/
def submitEventOf (oid : String) (n : Nat) (row : SqueueRow) : OCELEvent :=
  ⟨"submit-" ++ oid ++ "-" ++ toString n, "Submit Job", row.submit_time,
    [⟨oid, "job"⟩, ⟨"acc_" ++ row.account, "submitter"⟩]⟩

/-- The pending Started event seeded from the base snapshot: present
only when the base state is not PENDING and a start time is known. -/
def start0Of (oid : String) (n : Nat) (row : SqueueRow) : Option OCELEvent :=
  if row.state = JobState.PENDING then none
  else
    match row.start_time with
    | some st =>
      some ⟨"start-" ++ oid ++ "-" ++ toString n, "Job Started", st, [⟨oid, "job"⟩]⟩
    | none => none

/-- The per-job state right before delta replay: entities registered,
Submit event pushed, pending Started event seeded from the base
snapshot (both event identifiers carry the global event count exactly
as in the source: the Submit one counts before its own push, the
Started one after). -/
def preDeltaAcc (acc : ExtractAcc) (dt : Int) (row : SqueueRow) : DeltaAcc :=
  let acc := jobEntitySets acc row
  let oid := (jobObject dt row).id
  let submit := submitEventOf oid acc.events.length row
  let acc := { acc with events := acc.events ++ [submit] }
  ⟨acc, row, start0Of oid acc.events.length row, dt⟩

/-- Processing of one job with a parsed base snapshot: register
entities, emit the Submit event, seed the pending Started event from
the base snapshot, replay all delta files, then push the Job object and
the pending Started event, if any. -/
def processJobRow (acc : ExtractAcc) (dt : Int) (row : SqueueRow)
    (ds : List (Int × List Diff)) : ExtractAcc :=
  let o := jobObject dt row
  let s1 := ds.foldl (processEntry o.id) (preDeltaAcc acc dt row)
  let acc2 := { s1.acc with objects := s1.acc.objects ++ [o] }
  match s1.start_ev with
  | some e => { acc2 with events := acc2.events ++ [e] }
  | none => acc2

/-- Processing of one job in `extract_oced_delta`: skip the job when it
has no files at all; abort the whole run (`unwrap` panic) when the base
snapshot does not parse; otherwise replay it. -/
def processJob (acc : ExtractAcc) (job : JobFiles) : Option ExtractAcc :=
  match job.first with
  | none => some acc
  | some (dt, parsed) =>
    match parsed with
    | none => none
    | some row => some (processJobRow acc dt row job.deltas)

/-- The extracted log: the assembled events and objects plus the
accumulated warnings. -/
structure ExtractResult where
  events : List OCELEvent
  objects : List OCELObject
  warnings : List Warning
deriving DecidableEq

/-- The entity objects appended at the end of `extract_oced_delta`:
kind-prefixed Account, Group, Partition and Host objects, in the order
of the source. -/
def entityObjects (acc : ExtractAcc) : List OCELObject :=
  acc.accounts.map (fun a => (⟨"acc_" ++ a, "Account", [], []⟩ : OCELObject))
  ++ acc.groups.map (fun a => (⟨"group_" ++ a, "Group", [], []⟩ : OCELObject))
  ++ acc.partitions.map (fun a => (⟨"part_" ++ a, "Partition", [], []⟩ : OCELObject))
  ++ acc.hosts.map (fun a => (⟨"host_" ++ a, "Host", [], []⟩ : OCELObject))

/-- The delta-replay extraction (`extract_oced_delta` in the source):
process every job in turn, then append the entity objects and export.
A `none` result is a panic of the original (no log is exported). -/
def extract_oced_delta (jobs : List JobFiles) : Option ExtractResult := do
  let init : ExtractAcc := ⟨[], [], [], [], [], [], []⟩
  let acc ← jobs.foldlM processJob init
  pure ⟨acc.events, acc.objects ++ entityObjects acc, acc.warnings⟩

/-- Order-preserving deduplication, the embedding of collecting into a
`HashSet` (one canonical iteration order). -/
def dedupStr (xs : List String) : List String :=
  xs.foldl insertSet []

/-- All rows of all snapshots, in order. -/
def allRows (data : List (Int × List SqueueRow)) : List SqueueRow :=
  data.foldr (fun p acc => p.2 ++ acc) []

/-- Stable insertion into a list sorted ascending by capture time. -/
def insSorted (x : Int × SqueueRow) : List (Int × SqueueRow) → List (Int × SqueueRow)
  | [] => [x]
  | y :: ys => if x.1 ≤ y.1 then x :: y :: ys else y :: insSorted x ys

/-- Stable ascending sort by capture time (`rows.sort_by_key`). -/
def sortByTime (xs : List (Int × SqueueRow)) : List (Int × SqueueRow) :=
  xs.foldr insSorted []

/-- The observation list of one job in `extract_ocel`: from each
snapshot the first row carrying the job id, sorted stably by capture
time (`rows.sort_by_key`). -/
def rowsForJob (data : List (Int × List SqueueRow)) (j : String) :
    List (Int × SqueueRow) :=
  sortByTime (data.filterMap (fun p =>
    (p.2.find? (fun r => r.job_id == j)).map (fun r => (p.1, r))))

/-- The Job object of `extract_ocel`, built from the job's last
observation; identifiers and relationship targets are the raw names. -/
def snapJobObject (j : String) (r : SqueueRow) : OCELObject :=
  let o : OCELObject :=
    { id := j
      object_type := "Job"
      attributes := [⟨"command", basename r.command, 0⟩,
        ⟨"work_dir", r.work_dir, 0⟩,
        ⟨"cpus", toString r.cpus, 0⟩,
        ⟨"min_memory", r.min_memory, 0⟩]
      relationships := [⟨r.account, "submitted by"⟩,
        ⟨r.group, "submitted by group"⟩,
        ⟨r.partition, "submitted on"⟩] }
  match r.exec_host with
  | some h => { o with relationships := o.relationships ++ [⟨h, "runs on"⟩] }
  | none => o

/-- The events assembled by `extract_ocel`: per job one Submit Job
event from the LAST observation's submit time, and one Start Job event
when that observation carries a start time. -/
def extract_ocel_events (data : List (Int × List SqueueRow)) : List OCELEvent :=
  (dedupStr ((allRows data).map (fun r => r.job_id))).foldr
    (fun j acc =>
      match (rowsForJob data j).getLast? with
      | none => acc
      | some p =>
        let r := p.2
        let submit : OCELEvent :=
          ⟨"submit_job_" ++ j, "Submit Job", r.submit_time, [⟨j, "job"⟩]⟩
        let rest :=
          match r.start_time with
          | some x => [(⟨"start_job_" ++ j, "Start Job", x, [⟨j, "job"⟩]⟩ : OCELEvent)]
          | none => []
        submit :: rest ++ acc) []

/-- The objects assembled by `extract_ocel`: Job objects from the last
observation of each job, then Account, Host, Group and Partition
objects under their RAW (unqualified) identifiers. -/
def extract_ocel_objects (data : List (Int × List SqueueRow)) : List OCELObject :=
  let jobObjs := (dedupStr ((allRows data).map (fun r => r.job_id))).filterMap
    (fun j => ((rowsForJob data j).getLast?).map (fun p => snapJobObject j p.2))
  jobObjs
  ++ (dedupStr ((allRows data).map (fun r => r.account))).map
      (fun a => (⟨a, "Account", [], []⟩ : OCELObject))
  ++ (dedupStr ((allRows data).filterMap (fun r => r.exec_host))).map
      (fun a => (⟨a, "Host", [], []⟩ : OCELObject))
  ++ (dedupStr ((allRows data).map (fun r => r.group))).map
      (fun a => (⟨a, "Group", [], []⟩ : OCELObject))
  ++ (dedupStr ((allRows data).map (fun r => r.partition))).map
      (fun a => (⟨a, "Partition", [], []⟩ : OCELObject))

/-- The snapshot-mode extraction (`extract_ocel` in the source): the
assembled log is exported only after the two `assert_eq!` checks that
all object identifiers and all event identifiers are globally distinct;
a failed assert panics before the export (`none`). -/
def extract_ocel (data : List (Int × List SqueueRow)) : Option ExtractResult :=
  let events := extract_ocel_events data
  let objects := extract_ocel_objects data
  if (objects.map (fun o => o.id)).Nodup ∧ (events.map (fun e => e.id)).Nodup
  then some ⟨events, objects, []⟩ else none

/-- Relationship test: the event carries a relationship to object `j`
with qualifier `job`. -/
def isForJob (j : String) (e : OCELEvent) : Bool :=
  e.relationships.any (fun rel => rel.objectId == j && rel.qualifier == "job")

/-- All events of type `ty` related, with qualifier `job`, to job `j`. -/
def evFilter (ty j : String) (evs : List OCELEvent) : List OCELEvent :=
  evs.filter (fun e => e.event_type == ty && isForJob j e)

/-- The parsed base snapshot row of a job, when it has one. -/
def baseRowOf (jb : JobFiles) : Option SqueueRow :=
  match jb.first with
  | some (_, some r) => some r
  | _ => none

/-- The job identifier of the parsed base snapshot, when it has one. -/
def baseIdOf (jb : JobFiles) : Option String :=
  (baseRowOf jb).map (fun r => r.job_id)

/-- The event types a state delta can push. -/
def stateEvTypes : List String :=
  ["Job Ending", "Job Completed", "Job Cancelled", "Job Failed",
   "Job Timeout", "Job Out Of Memory"]

/-- The id tag and event type pushed for a state delta, `none` for the
three suppressed arms (RUNNING, PENDING, OTHER). -/
def stateEvName : JobState → Option (String × String)
  | .COMPLETING => some ("ending-_", "Job Ending")
  | .COMPLETED => some ("ended-_", "Job Completed")
  | .CANCELLED => some ("cancelled-_", "Job Cancelled")
  | .FAILED => some ("failed-_", "Job Failed")
  | .TIMEOUT => some ("timeout-_", "Job Timeout")
  | .OUT_OF_MEMORY => some ("oom-_", "Job Out Of Memory")
  | _ => none

/-- The event category the claim list attaches to each terminal state. -/
def terminalEventType : JobState → Option String
  | .COMPLETED => some "Job Completed"
  | .CANCELLED => some "Job Cancelled"
  | .FAILED => some "Job Failed"
  | .TIMEOUT => some "Job Timeout"
  | .OUT_OF_MEMORY => some "Job Out Of Memory"
  | _ => none

/-- The events appended to the log by the reaction to one field-level
delta, given the current global event count `n`. -/
def diffEvents (oid : String) (dt : Int) (n : Nat) : Diff → List OCELEvent
  | .state st =>
    match stateEvName st with
    | some pr => [⟨pr.1 ++ oid ++ "-" ++ toString n, pr.2, dt, [⟨oid, "job"⟩]⟩]
    | none => []
  | _ => []

/-- Invariant of the pending Started event of the job with object id
`oid`: when present it is a Job Started event related to that job. -/
def startOk (oid : String) : Option OCELEvent → Prop
  | none => True
  | some e => e.event_type = "Job Started" ∧ e.relationships = [⟨oid, "job"⟩]

theorem processDiff_events_eq (oid : String) (dt : Int) (s : DeltaAcc) (d : Diff) :
    (processDiff oid dt s d).acc.events =
      s.acc.events ++ diffEvents oid dt s.acc.events.length d := by
  cases d
  case exec_host h => cases h <;> simp [processDiff, diffEvents]
  case state st =>
    cases st <;> simp [processDiff, diffEvents, stateEvName, pushEv, addWarn]
  case start_time st =>
    cases st with
    | none => simp [processDiff, diffEvents]
    | some t =>
      by_cases h : s.row.state = JobState.PENDING
      · simp [processDiff, diffEvents, h]
      · cases hse : s.start_ev <;> simp [processDiff, diffEvents, h, hse]
  all_goals simp [processDiff, diffEvents]

theorem processDiff_row (oid : String) (dt : Int) (s : DeltaAcc) (d : Diff) :
    (processDiff oid dt s d).row = s.row := by
  cases d
  case exec_host h => cases h <;> simp [processDiff]
  case state st => cases st <;> simp [processDiff, pushEv, addWarn]
  case start_time st =>
    cases st with
    | none => simp [processDiff]
    | some t =>
      by_cases h : s.row.state = JobState.PENDING
      · simp [processDiff, h]
      · cases hse : s.start_ev <;> simp [processDiff, h, hse]
  all_goals simp [processDiff]

theorem processDiff_objects (oid : String) (dt : Int) (s : DeltaAcc) (d : Diff) :
    (processDiff oid dt s d).acc.objects = s.acc.objects := by
  cases d
  case exec_host h => cases h <;> simp [processDiff]
  case state st => cases st <;> simp [processDiff, pushEv, addWarn]
  case start_time st =>
    cases st with
    | none => simp [processDiff]
    | some t =>
      by_cases h : s.row.state = JobState.PENDING
      · simp [processDiff, h]
      · cases hse : s.start_ev <;> simp [processDiff, h, hse]
  all_goals simp [processDiff]

theorem processDiff_warnings (oid : String) (dt : Int) (s : DeltaAcc) (d : Diff) :
    ∃ tw, (processDiff oid dt s d).acc.warnings = s.acc.warnings ++ tw := by
  cases d
  case exec_host h => cases h <;> exact ⟨[], by simp [processDiff]⟩
  case state st =>
    cases st
    case PENDING => exact ⟨[Warning.toPending oid], by simp [processDiff, addWarn]⟩
    case OTHER lbl => exact ⟨[Warning.toOther oid lbl], by simp [processDiff, addWarn]⟩
    all_goals exact ⟨[], by simp [processDiff, pushEv]⟩
  case start_time st =>
    cases st with
    | none => exact ⟨[], by simp [processDiff]⟩
    | some t =>
      by_cases h : s.row.state = JobState.PENDING
      · exact ⟨[], by simp [processDiff, h]⟩
      · cases hse : s.start_ev <;> exact ⟨[], by simp [processDiff, h, hse]⟩
  all_goals exact ⟨[], by simp [processDiff]⟩

theorem processDiff_startOk (oid : String) (dt : Int) (s : DeltaAcc) (d : Diff)
    (h : startOk oid s.start_ev) :
    startOk oid (processDiff oid dt s d).start_ev := by
  cases d
  case exec_host hh => cases hh <;> simpa [processDiff] using h
  case state st => cases st <;> simpa [processDiff, pushEv, addWarn] using h
  case start_time st =>
    cases st with
    | none => simpa [processDiff] using h
    | some t =>
      by_cases hp : s.row.state = JobState.PENDING
      · simpa [processDiff, hp] using h
      · cases hse : s.start_ev with
        | none => simp [processDiff, hp, hse, startOk]
        | some e =>
          rw [hse] at h
          simpa [processDiff, hp, hse, startOk] using h
  all_goals simpa [processDiff] using h

theorem diffEvents_mem (oid : String) (dt : Int) (n : Nat) (d : Diff) :
    ∀ e ∈ diffEvents oid dt n d,
      e.event_type ∈ stateEvTypes ∧ e.relationships = [⟨oid, "job"⟩] := by
  cases d
  case state st => cases st <;> simp [diffEvents, stateEvName, stateEvTypes]
  all_goals simp [diffEvents]

theorem foldDiffs_spec (oid : String) (dt : Int) (ds : List Diff) (s : DeltaAcc) :
    (ds.foldl (processDiff oid dt) s).row = s.row ∧
    (ds.foldl (processDiff oid dt) s).acc.objects = s.acc.objects ∧
    (∃ tl, (ds.foldl (processDiff oid dt) s).acc.events = s.acc.events ++ tl ∧
      ∀ e ∈ tl, e.event_type ∈ stateEvTypes ∧ e.relationships = [⟨oid, "job"⟩]) ∧
    (∃ tw, (ds.foldl (processDiff oid dt) s).acc.warnings = s.acc.warnings ++ tw) ∧
    (startOk oid s.start_ev → startOk oid (ds.foldl (processDiff oid dt) s).start_ev) := by
  induction ds generalizing s with
  | nil => exact ⟨rfl, rfl, ⟨[], by simp, by simp⟩, ⟨[], by simp⟩, fun h => h⟩
  | cons d ds ih =>
    obtain ⟨hrow, hobj, ⟨tl, htl, htlP⟩, ⟨tw, htw⟩, hso⟩ := ih (processDiff oid dt s d)
    refine ⟨?_, ?_, ?_, ?_, ?_⟩
    · rw [List.foldl_cons, hrow, processDiff_row]
    · rw [List.foldl_cons, hobj, processDiff_objects]
    · refine ⟨diffEvents oid dt s.acc.events.length d ++ tl, ?_, ?_⟩
      · rw [List.foldl_cons, htl, processDiff_events_eq, List.append_assoc]
      · intro e he
        rcases List.mem_append.mp he with h1 | h2
        · exact diffEvents_mem oid dt _ d e h1
        · exact htlP e h2
    · obtain ⟨tw0, htw0⟩ := processDiff_warnings oid dt s d
      exact ⟨tw0 ++ tw, by rw [List.foldl_cons, htw, htw0, List.append_assoc]⟩
    · intro h0
      exact hso (processDiff_startOk oid dt s d h0)

theorem processEntry_eq (oid : String) (s : DeltaAcc) (en : Int × List Diff) :
    processEntry oid s en =
      en.2.foldl (processDiff oid en.1)
        { acc := { s.acc with warnings :=
            if s.last_dt > en.1 then s.acc.warnings ++ [Warning.backwards oid s.last_dt en.1]
            else s.acc.warnings },
          row := apply_mut s.row en.2, start_ev := s.start_ev, last_dt := en.1 } := rfl

theorem processEntry_spec (oid : String) (s : DeltaAcc) (en : Int × List Diff) :
    (processEntry oid s en).row = apply_mut s.row en.2 ∧
    (processEntry oid s en).acc.objects = s.acc.objects ∧
    (∃ tl, (processEntry oid s en).acc.events = s.acc.events ++ tl ∧
      ∀ e ∈ tl, e.event_type ∈ stateEvTypes ∧ e.relationships = [⟨oid, "job"⟩]) ∧
    (∃ tw, (processEntry oid s en).acc.warnings =
      (if s.last_dt > en.1 then s.acc.warnings ++ [Warning.backwards oid s.last_dt en.1]
       else s.acc.warnings) ++ tw) ∧
    (startOk oid s.start_ev → startOk oid (processEntry oid s en).start_ev) := by
  rw [processEntry_eq]
  exact foldDiffs_spec oid en.1 en.2 _

theorem foldEntries_spec (oid : String) (es : List (Int × List Diff)) (s : DeltaAcc) :
    (es.foldl (processEntry oid) s).acc.objects = s.acc.objects ∧
    (∃ tl, (es.foldl (processEntry oid) s).acc.events = s.acc.events ++ tl ∧
      ∀ e ∈ tl, e.event_type ∈ stateEvTypes ∧ e.relationships = [⟨oid, "job"⟩]) ∧
    (∃ tw, (es.foldl (processEntry oid) s).acc.warnings = s.acc.warnings ++ tw) ∧
    (startOk oid s.start_ev → startOk oid (es.foldl (processEntry oid) s).start_ev) := by
  induction es generalizing s with
  | nil => exact ⟨rfl, ⟨[], by simp, by simp⟩, ⟨[], by simp⟩, fun h => h⟩
  | cons en es ih =>
    obtain ⟨hobj, ⟨tl, htl, htlP⟩, ⟨tw, htw⟩, hso⟩ := ih (processEntry oid s en)
    obtain ⟨_, hobj0, ⟨tl0, htl0, htl0P⟩, ⟨tw0, htw0⟩, hso0⟩ := processEntry_spec oid s en
    refine ⟨?_, ?_, ?_, ?_⟩
    · rw [List.foldl_cons, hobj, hobj0]
    · refine ⟨tl0 ++ tl, ?_, ?_⟩
      · rw [List.foldl_cons, htl, htl0, List.append_assoc]
      · intro e he
        rcases List.mem_append.mp he with h1 | h2
        · exact htl0P e h1
        · exact htlP e h2
    · have hpre : ∃ tw1, (processEntry oid s en).acc.warnings = s.acc.warnings ++ tw1 := by
        rw [htw0]
        by_cases hb : s.last_dt > en.1
        · exact ⟨[Warning.backwards oid s.last_dt en.1] ++ tw0, by rw [if_pos hb, List.append_assoc]⟩
        · exact ⟨tw0, by rw [if_neg hb]⟩
      obtain ⟨tw1, htw1⟩ := hpre
      exact ⟨tw1 ++ tw, by rw [List.foldl_cons, htw, htw1, List.append_assoc]⟩
    · intro h0
      exact hso (hso0 h0)

theorem evFilter_append (ty j : String) (a b : List OCELEvent) :
    evFilter ty j (a ++ b) = evFilter ty j a ++ evFilter ty j b :=
  List.filter_append a b

theorem diffEvents_count (c : JobState) (ty : String) (hc : terminalEventType c = some ty)
    (oid : String) (dt : Int) (n : Nat) (d : Diff) :
    (evFilter ty oid (diffEvents oid dt n d)).length =
      (if d = Diff.state c then 1 else 0) := by
  cases c <;> simp only [terminalEventType, Option.some.injEq, reduceCtorEq] at hc
  all_goals subst hc
  all_goals
    (cases d
     case state st => cases st <;> simp +decide [diffEvents, stateEvName, evFilter, isForJob]
     all_goals simp [diffEvents, evFilter])

theorem foldDiffs_count (c : JobState) (ty : String) (hc : terminalEventType c = some ty)
    (oid : String) (dt : Int) (ds : List Diff) (s : DeltaAcc) :
    (evFilter ty oid ((ds.foldl (processDiff oid dt) s).acc.events)).length =
      (evFilter ty oid s.acc.events).length +
        ds.countP (fun d => decide (d = Diff.state c)) := by
  induction ds generalizing s with
  | nil => simp
  | cons d ds ih =>
    rw [List.foldl_cons, ih (processDiff oid dt s d), processDiff_events_eq,
      evFilter_append, List.length_append, diffEvents_count c ty hc, List.countP_cons]
    by_cases hd : d = Diff.state c <;> simp [hd]
    all_goals omega

theorem processEntry_count (c : JobState) (ty : String) (hc : terminalEventType c = some ty)
    (oid : String) (s : DeltaAcc) (en : Int × List Diff) :
    (evFilter ty oid (processEntry oid s en).acc.events).length =
      (evFilter ty oid s.acc.events).length +
        en.2.countP (fun d => decide (d = Diff.state c)) := by
  rw [processEntry_eq]
  exact foldDiffs_count c ty hc oid en.1 en.2 _

/-- How many state deltas of a job's delta files set the state to `c`. -/
def termDeltaCount (c : JobState) (es : List (Int × List Diff)) : Nat :=
  (es.map (fun en => en.2.countP (fun d => decide (d = Diff.state c)))).sum

theorem foldEntries_count (c : JobState) (ty : String) (hc : terminalEventType c = some ty)
    (oid : String) (es : List (Int × List Diff)) (s : DeltaAcc) :
    (evFilter ty oid ((es.foldl (processEntry oid) s).acc.events)).length =
      (evFilter ty oid s.acc.events).length + termDeltaCount c es := by
  induction es generalizing s with
  | nil => simp [termDeltaCount]
  | cons en es ih =>
    rw [List.foldl_cons, ih (processEntry oid s en), processEntry_count c ty hc]
    simp only [termDeltaCount, List.map_cons, List.sum_cons]
    omega

theorem jobObject_id (dt : Int) (row : SqueueRow) : (jobObject dt row).id = row.job_id := by
  cases h : row.exec_host <;> simp [jobObject, h]

theorem jobObject_type (dt : Int) (row : SqueueRow) :
    (jobObject dt row).object_type = "Job" := by
  cases h : row.exec_host <;> simp [jobObject, h]

theorem start0Of_startOk (oid : String) (n : Nat) (row : SqueueRow) :
    startOk oid (start0Of oid n row) := by
  unfold start0Of
  split
  · simp [startOk]
  · cases row.start_time <;> simp [startOk]

theorem preDeltaAcc_events (acc : ExtractAcc) (dt : Int) (row : SqueueRow) :
    (preDeltaAcc acc dt row).acc.events =
      acc.events ++ [submitEventOf (jobObject dt row).id acc.events.length row] := rfl

theorem preDeltaAcc_objects (acc : ExtractAcc) (dt : Int) (row : SqueueRow) :
    (preDeltaAcc acc dt row).acc.objects = acc.objects := rfl

theorem preDeltaAcc_startOk (acc : ExtractAcc) (dt : Int) (row : SqueueRow) :
    startOk (jobObject dt row).id (preDeltaAcc acc dt row).start_ev :=
  start0Of_startOk _ _ row

theorem terminalEventType_props (c : JobState) (ty : String)
    (hc : terminalEventType c = some ty) :
    ty ≠ "Submit Job" ∧ ty ≠ "Job Started" := by
  cases c <;> simp only [terminalEventType, Option.some.injEq, reduceCtorEq] at hc
  all_goals subst hc
  all_goals decide

theorem evFilter_eq_nil (ty j : String) (l : List OCELEvent)
    (h : ∀ e ∈ l, (e.event_type == ty && isForJob j e) = false) :
    evFilter ty j l = [] := by
  refine List.filter_eq_nil_iff.mpr ?_
  intro e he
  simp [h e he]

theorem processJobRow_events (acc : ExtractAcc) (dt : Int) (row : SqueueRow)
    (ds : List (Int × List Diff)) :
    ∃ tl stl, (processJobRow acc dt row ds).events =
      acc.events ++ [submitEventOf row.job_id acc.events.length row] ++ tl ++ stl ∧
      (∀ e ∈ tl, e.event_type ∈ stateEvTypes ∧ e.relationships = [⟨row.job_id, "job"⟩]) ∧
      (∀ e ∈ stl, e.event_type = "Job Started" ∧ e.relationships = [⟨row.job_id, "job"⟩]) ∧
      stl.length ≤ 1 := by
  rw [← jobObject_id dt row]
  obtain ⟨hobj, ⟨tl, htl, htlP⟩, _, hso⟩ :=
    foldEntries_spec (jobObject dt row).id ds (preDeltaAcc acc dt row)
  have hst := hso (preDeltaAcc_startOk acc dt row)
  rw [preDeltaAcc_events] at htl
  cases hse : (ds.foldl (processEntry (jobObject dt row).id) (preDeltaAcc acc dt row)).start_ev with
  | none =>
    refine ⟨tl, [], ?_, htlP, by simp, by simp⟩
    simp only [processJobRow, hse]
    simp [htl]
  | some e =>
    rw [hse] at hst
    refine ⟨tl, [e], ?_, htlP, ?_, by simp⟩
    · simp only [processJobRow, hse]
      simp [htl]
    · intro e' he'
      rcases List.mem_singleton.mp he' with rfl
      simpa [startOk] using hst

theorem processJobRow_objects (acc : ExtractAcc) (dt : Int) (row : SqueueRow)
    (ds : List (Int × List Diff)) :
    (processJobRow acc dt row ds).objects = acc.objects ++ [jobObject dt row] := by
  obtain ⟨hobj, _, _, _⟩ := foldEntries_spec (jobObject dt row).id ds (preDeltaAcc acc dt row)
  rw [preDeltaAcc_objects] at hobj
  cases hse : (ds.foldl (processEntry (jobObject dt row).id) (preDeltaAcc acc dt row)).start_ev <;>
    simp only [processJobRow, hse] <;> simp [hobj]

theorem stateEvTypes_ne (t : String) (ht : t ∈ stateEvTypes) :
    t ≠ "Submit Job" ∧ t ≠ "Job Started" := by
  fin_cases ht <;> exact ⟨by decide, by decide⟩

theorem processJobRow_other (acc : ExtractAcc) (dt : Int) (row : SqueueRow)
    (ds : List (Int × List Diff)) (ty j : String) (hne : j ≠ row.job_id) :
    evFilter ty j (processJobRow acc dt row ds).events = evFilter ty j acc.events := by
  have hb : (row.job_id == j) = false := beq_eq_false_iff_ne.mpr (Ne.symm hne)
  obtain ⟨tl, stl, hev, htlP, hstlP, _⟩ := processJobRow_events acc dt row ds
  rw [hev, evFilter_append, evFilter_append, evFilter_append]
  have h1 : evFilter ty j [submitEventOf row.job_id acc.events.length row] = [] := by
    refine evFilter_eq_nil ty j _ ?_
    intro e he
    rcases List.mem_singleton.mp he with rfl
    simp +decide [submitEventOf, isForJob, hb]
  have h2 : evFilter ty j tl = [] := by
    refine evFilter_eq_nil ty j _ ?_
    intro e he
    obtain ⟨_, hrel⟩ := htlP e he
    simp +decide [isForJob, hrel, hb]
  have h3 : evFilter ty j stl = [] := by
    refine evFilter_eq_nil ty j _ ?_
    intro e he
    obtain ⟨_, hrel⟩ := hstlP e he
    simp +decide [isForJob, hrel, hb]
  simp [h1, h2, h3]

theorem processJobRow_submit (acc : ExtractAcc) (dt : Int) (row : SqueueRow)
    (ds : List (Int × List Diff)) :
    ∃ e, evFilter "Submit Job" row.job_id (processJobRow acc dt row ds).events =
      evFilter "Submit Job" row.job_id acc.events ++ [e] ∧
      e.time = row.submit_time ∧ e.event_type = "Submit Job" := by
  obtain ⟨tl, stl, hev, htlP, hstlP, _⟩ := processJobRow_events acc dt row ds
  rw [hev, evFilter_append, evFilter_append, evFilter_append]
  have h1 : evFilter "Submit Job" row.job_id [submitEventOf row.job_id acc.events.length row] =
      [submitEventOf row.job_id acc.events.length row] := by
    simp [evFilter, submitEventOf, isForJob]
  have h2 : evFilter "Submit Job" row.job_id tl = [] := by
    refine evFilter_eq_nil _ _ _ ?_
    intro e he
    obtain ⟨hty, _⟩ := htlP e he
    have := (stateEvTypes_ne _ hty).1
    simp [beq_eq_false_iff_ne.mpr this]
  have h3 : evFilter "Submit Job" row.job_id stl = [] := by
    refine evFilter_eq_nil _ _ _ ?_
    intro e he
    obtain ⟨hty, _⟩ := hstlP e he
    simp [hty]
  refine ⟨submitEventOf row.job_id acc.events.length row, ?_, rfl, rfl⟩
  simp [h1, h2, h3]

theorem processJobRow_started (acc : ExtractAcc) (dt : Int) (row : SqueueRow)
    (ds : List (Int × List Diff)) :
    (evFilter "Job Started" row.job_id (processJobRow acc dt row ds).events).length ≤
      (evFilter "Job Started" row.job_id acc.events).length + 1 := by
  obtain ⟨tl, stl, hev, htlP, hstlP, hlen⟩ := processJobRow_events acc dt row ds
  rw [hev, evFilter_append, evFilter_append, evFilter_append]
  have h1 : evFilter "Job Started" row.job_id
      [submitEventOf row.job_id acc.events.length row] = [] := by
    refine evFilter_eq_nil _ _ _ ?_
    intro e he
    rcases List.mem_singleton.mp he with rfl
    simp +decide [submitEventOf]
  have h2 : evFilter "Job Started" row.job_id tl = [] := by
    refine evFilter_eq_nil _ _ _ ?_
    intro e he
    obtain ⟨hty, _⟩ := htlP e he
    have := (stateEvTypes_ne _ hty).2
    simp [beq_eq_false_iff_ne.mpr this]
  have h3 : (evFilter "Job Started" row.job_id stl).length ≤ 1 :=
    le_trans (List.length_filter_le _ stl) hlen
  simp only [h1, h2, List.append_nil, List.length_append, List.length_nil]
  omega

theorem processJobRow_count (c : JobState) (ty : String) (hc : terminalEventType c = some ty)
    (acc : ExtractAcc) (dt : Int) (row : SqueueRow) (ds : List (Int × List Diff)) :
    (evFilter ty row.job_id (processJobRow acc dt row ds).events).length =
      (evFilter ty row.job_id acc.events).length + termDeltaCount c ds := by
  obtain ⟨hne1, hne2⟩ := terminalEventType_props c ty hc
  rw [← jobObject_id dt row]
  have hcount := foldEntries_count c ty hc (jobObject dt row).id ds (preDeltaAcc acc dt row)
  obtain ⟨_, _, _, hso⟩ := foldEntries_spec (jobObject dt row).id ds (preDeltaAcc acc dt row)
  have hst := hso (preDeltaAcc_startOk acc dt row)
  rw [preDeltaAcc_events] at hcount
  rw [evFilter_append] at hcount
  have h1 : evFilter ty (jobObject dt row).id
      [submitEventOf (jobObject dt row).id acc.events.length row] = [] := by
    refine evFilter_eq_nil _ _ _ ?_
    intro e he
    rcases List.mem_singleton.mp he with rfl
    simp [submitEventOf, beq_eq_false_iff_ne.mpr (Ne.symm hne1)]
  rw [h1, List.append_nil] at hcount
  cases hse : (ds.foldl (processEntry (jobObject dt row).id) (preDeltaAcc acc dt row)).start_ev with
  | none =>
    simp only [processJobRow, hse]
    simpa using hcount
  | some e =>
    rw [hse] at hst
    simp only [startOk] at hst
    simp only [processJobRow, hse]
    have h2 : evFilter ty (jobObject dt row).id [e] = [] := by
      refine evFilter_eq_nil _ _ _ ?_
      intro e' he'
      rcases List.mem_singleton.mp he' with rfl
      simp [hst.1, beq_eq_false_iff_ne.mpr (Ne.symm hne2)]
    have h3 := evFilter_append ty (jobObject dt row).id
      ((ds.foldl (processEntry (jobObject dt row).id) (preDeltaAcc acc dt row)).acc.events) [e]
    simp only [h2, List.append_nil] at h3
    simp only [h3]
    simpa using hcount

theorem processJob_cases (acc : ExtractAcc) (jb : JobFiles) (acc' : ExtractAcc)
    (h : processJob acc jb = some acc') :
    (baseRowOf jb = none ∧ acc' = acc) ∨
    ∃ dt r, jb.first = some (dt, some r) ∧ baseRowOf jb = some r ∧
      acc' = processJobRow acc dt r jb.deltas := by
  rcases jb with ⟨first, ds⟩
  cases first with
  | none =>
    left
    refine ⟨rfl, ?_⟩
    simpa [processJob] using h.symm
  | some p =>
    rcases p with ⟨dt, parsed⟩
    cases parsed with
    | none => simp [processJob] at h
    | some r =>
      right
      refine ⟨dt, r, rfl, rfl, ?_⟩
      simpa [processJob] using h.symm

theorem foldJobs_other (ty j : String) (jobs : List JobFiles) (acc acc' : ExtractAcc)
    (h : List.foldlM processJob acc jobs = some acc')
    (hj : ∀ jb ∈ jobs, baseIdOf jb ≠ some j) :
    evFilter ty j acc'.events = evFilter ty j acc.events := by
  induction jobs generalizing acc with
  | nil =>
    simp only [List.foldlM_nil] at h
    cases h
    rfl
  | cons jb jobs ih =>
    rw [List.foldlM_cons] at h
    cases hpj : processJob acc jb with
    | none => rw [hpj] at h; simp at h
    | some acc1 =>
      rw [hpj] at h
      replace h : List.foldlM processJob acc1 jobs = some acc' := h
      have hrest := ih acc1 h (fun jb' hm => hj jb' (List.mem_cons_of_mem _ hm))
      rw [hrest]
      rcases processJob_cases acc jb acc1 hpj with ⟨_, rfl⟩ | ⟨dt, r, hfirst, hbase, rfl⟩
      · rfl
      · refine processJobRow_other acc dt r jb.deltas ty j ?_
        have hjj := hj jb (List.mem_cons_self jb jobs)
        have hbid : baseIdOf jb = some r.job_id := by simp [baseIdOf, hbase]
        intro hje
        exact hjj (by rw [hbid, hje])

theorem foldJobs_objects (jobs : List JobFiles) (acc acc' : ExtractAcc)
    (h : List.foldlM processJob acc jobs = some acc') :
    ∀ o ∈ acc'.objects, o ∈ acc.objects ∨ o.object_type = "Job" := by
  induction jobs generalizing acc with
  | nil =>
    simp only [List.foldlM_nil] at h
    cases h
    exact fun o ho => Or.inl ho
  | cons jb jobs ih =>
    rw [List.foldlM_cons] at h
    cases hpj : processJob acc jb with
    | none => rw [hpj] at h; simp at h
    | some acc1 =>
      rw [hpj] at h
      replace h : List.foldlM processJob acc1 jobs = some acc' := h
      intro o ho
      rcases ih acc1 h o ho with h1 | h2
      · rcases processJob_cases acc jb acc1 hpj with ⟨_, rfl⟩ | ⟨dt, r, hfirst, hbase, rfl⟩
        · exact Or.inl h1
        · rw [processJobRow_objects] at h1
          rcases List.mem_append.mp h1 with h3 | h3
          · exact Or.inl h3
          · rcases List.mem_singleton.mp h3 with rfl
            exact Or.inr (jobObject_type dt r)
      · exact Or.inr h2

theorem foldJobs_member (jb : JobFiles) (r : SqueueRow) (hr : baseRowOf jb = some r) :
    ∀ (jobs : List JobFiles) (acc acc' : ExtractAcc),
      List.foldlM processJob acc jobs = some acc' →
      (jobs.filterMap baseIdOf).Nodup → jb ∈ jobs →
      (∃ e, evFilter "Submit Job" r.job_id acc'.events =
          evFilter "Submit Job" r.job_id acc.events ++ [e] ∧
          e.time = r.submit_time ∧ e.event_type = "Submit Job") ∧
      (∀ c ty, terminalEventType c = some ty →
        (evFilter ty r.job_id acc'.events).length =
          (evFilter ty r.job_id acc.events).length + termDeltaCount c jb.deltas) ∧
      ((evFilter "Job Started" r.job_id acc'.events).length ≤
          (evFilter "Job Started" r.job_id acc.events).length + 1) := by
  intro jobs
  induction jobs with
  | nil =>
    intro acc acc' h hnd hjb
    exact absurd hjb (List.not_mem_nil jb)
  | cons hd tl ih =>
    intro acc acc' h hnd hjb
    rw [List.foldlM_cons] at h
    cases hpj : processJob acc hd with
    | none => rw [hpj] at h; simp at h
    | some acc1 =>
      rw [hpj] at h
      replace h : List.foldlM processJob acc1 tl = some acc' := h
      rcases List.mem_cons.mp hjb with rfl | hmem
      · have hbid : baseIdOf jb = some r.job_id := by simp [baseIdOf, hr]
        have h2 : (jb :: tl).filterMap baseIdOf = r.job_id :: tl.filterMap baseIdOf := by
          simp [List.filterMap_cons, hbid]
        rw [h2] at hnd
        have hothers : ∀ jb' ∈ tl, baseIdOf jb' ≠ some r.job_id := by
          intro jb' hm heq
          exact (List.nodup_cons.mp hnd).1 (List.mem_filterMap.mpr ⟨jb', hm, heq⟩)
        rcases processJob_cases acc jb acc1 hpj with ⟨hnone, _⟩ | ⟨dt, r', hfirst, hbase, rfl⟩
        · rw [hnone] at hr; cases hr
        · rw [hr] at hbase
          injection hbase with hrr
          subst hrr
          refine ⟨?_, ?_, ?_⟩
          · obtain ⟨e, he, ht, hty⟩ := processJobRow_submit acc dt r jb.deltas
            have hrest := foldJobs_other "Submit Job" r.job_id tl _ acc' h hothers
            exact ⟨e, by rw [hrest, he], ht, hty⟩
          · intro c ty hc
            have hrest := foldJobs_other ty r.job_id tl _ acc' h hothers
            rw [hrest, processJobRow_count c ty hc]
          · have hrest := foldJobs_other "Job Started" r.job_id tl _ acc' h hothers
            rw [hrest]
            exact processJobRow_started acc dt r jb.deltas
      · have hnd' : (tl.filterMap baseIdOf).Nodup := by
          rcases hbid : baseIdOf hd with _ | b
          · simpa [List.filterMap_cons, hbid] using hnd
          · rw [List.filterMap_cons, hbid] at hnd
            exact (List.nodup_cons.mp hnd).2
        have hhd : ∀ ty, evFilter ty r.job_id acc1.events = evFilter ty r.job_id acc.events := by
          intro ty
          rcases processJob_cases acc hd acc1 hpj with ⟨_, rfl⟩ | ⟨dt, r', hfirst, hbase, rfl⟩
          · rfl
          · refine processJobRow_other acc dt r' hd.deltas ty r.job_id ?_
            have hb' : baseIdOf hd = some r'.job_id := by simp [baseIdOf, hbase]
            have hin : r.job_id ∈ tl.filterMap baseIdOf :=
              List.mem_filterMap.mpr ⟨jb, hmem, by simp [baseIdOf, hr]⟩
            have h2 : (hd :: tl).filterMap baseIdOf = r'.job_id :: tl.filterMap baseIdOf := by
              simp [List.filterMap_cons, hb']
            rw [h2] at hnd
            intro heq
            exact (List.nodup_cons.mp hnd).1 (heq ▸ hin)
        obtain ⟨hsub, hterm, hstart⟩ := ih acc1 acc' h hnd' hmem
        refine ⟨?_, ?_, ?_⟩
        · obtain ⟨e, he, ht, hty⟩ := hsub
          rw [hhd "Submit Job"] at he
          exact ⟨e, he, ht, hty⟩
        · intro c ty hc
          have := hterm c ty hc
          rwa [hhd ty] at this
        · rwa [hhd "Job Started"] at hstart

theorem extract_oced_delta_bind (jobs : List JobFiles) :
    extract_oced_delta jobs =
      (List.foldlM processJob (⟨[], [], [], [], [], [], []⟩ : ExtractAcc) jobs).bind
        (fun acc => some ⟨acc.events, acc.objects ++ entityObjects acc, acc.warnings⟩) := rfl

theorem extract_oced_delta_some (jobs : List JobFiles) (res : ExtractResult)
    (h : extract_oced_delta jobs = some res) :
    ∃ acc', List.foldlM processJob (⟨[], [], [], [], [], [], []⟩ : ExtractAcc) jobs = some acc' ∧
      res.events = acc'.events ∧ res.objects = acc'.objects ++ entityObjects acc' ∧
      res.warnings = acc'.warnings := by
  rw [extract_oced_delta_bind] at h
  cases hf : List.foldlM processJob (⟨[], [], [], [], [], [], []⟩ : ExtractAcc) jobs with
  | none => rw [hf] at h; simp at h
  | some acc' =>
    rw [hf] at h
    replace h : some (⟨acc'.events, acc'.objects ++ entityObjects acc', acc'.warnings⟩ :
      ExtractResult) = some res := h
    cases h
    exact ⟨acc', rfl, rfl, rfl, rfl⟩

theorem entityObjects_mem (acc : ExtractAcc) :
    ∀ o ∈ entityObjects acc,
      (o.object_type = "Account" ∧ ∃ a, o.id = "acc_" ++ a) ∨
      (o.object_type = "Group" ∧ ∃ a, o.id = "group_" ++ a) ∨
      (o.object_type = "Partition" ∧ ∃ a, o.id = "part_" ++ a) ∨
      (o.object_type = "Host" ∧ ∃ a, o.id = "host_" ++ a) := by
  intro o ho
  unfold entityObjects at ho
  rcases List.mem_append.mp ho with ho | h
  · rcases List.mem_append.mp ho with ho | h
    · rcases List.mem_append.mp ho with h | h
      · obtain ⟨a, _, rfl⟩ := List.mem_map.mp h
        exact Or.inl ⟨rfl, a, rfl⟩
      · obtain ⟨a, _, rfl⟩ := List.mem_map.mp h
        exact Or.inr (Or.inl ⟨rfl, a, rfl⟩)
    · obtain ⟨a, _, rfl⟩ := List.mem_map.mp h
      exact Or.inr (Or.inr (Or.inl ⟨rfl, a, rfl⟩))
  · obtain ⟨a, _, rfl⟩ := List.mem_map.mp h
    exact Or.inr (Or.inr (Or.inr ⟨rfl, a, rfl⟩))

/-- Whether a field-level delta is one of the two kinds (state,
start_time) whose handlers touch events. -/
def touchesEvents : Diff → Bool
  | .state _ => true
  | .start_time _ => true
  | _ => false

theorem processDiff_frame (oid : String) (dt : Int) (s : DeltaAcc) (d : Diff)
    (h : touchesEvents d = false) :
    (processDiff oid dt s d).acc.events = s.acc.events ∧
    (processDiff oid dt s d).start_ev = s.start_ev := by
  cases d
  case state st => simp [touchesEvents] at h
  case start_time st => simp [touchesEvents] at h
  case exec_host hh => cases hh <;> simp [processDiff]
  all_goals simp [processDiff]

theorem foldDiffs_frame (oid : String) (dt : Int) (ds : List Diff) (s : DeltaAcc)
    (h : ∀ d ∈ ds, touchesEvents d = false) :
    (ds.foldl (processDiff oid dt) s).acc.events = s.acc.events ∧
    (ds.foldl (processDiff oid dt) s).start_ev = s.start_ev := by
  induction ds generalizing s with
  | nil => exact ⟨rfl, rfl⟩
  | cons d ds ih =>
    obtain ⟨h1, h2⟩ := processDiff_frame oid dt s d (h d (List.mem_cons_self d ds))
    obtain ⟨h3, h4⟩ := ih (processDiff oid dt s d) (fun d' hm => h d' (List.mem_cons_of_mem _ hm))
    exact ⟨by rw [List.foldl_cons, h3, h1], by rw [List.foldl_cons, h4, h2]⟩

theorem processDiff_last_dt (oid : String) (dt : Int) (s : DeltaAcc) (d : Diff) :
    (processDiff oid dt s d).last_dt = s.last_dt := by
  cases d
  case exec_host hh => cases hh <;> simp [processDiff]
  case state st => cases st <;> simp [processDiff, pushEv, addWarn]
  case start_time st =>
    cases st with
    | none => simp [processDiff]
    | some t =>
      by_cases hp : s.row.state = JobState.PENDING
      · simp [processDiff, hp]
      · cases hse : s.start_ev <;> simp [processDiff, hp, hse]
  all_goals simp [processDiff]

theorem foldDiffs_last_dt (oid : String) (dt : Int) (ds : List Diff) (s : DeltaAcc) :
    (ds.foldl (processDiff oid dt) s).last_dt = s.last_dt := by
  induction ds generalizing s with
  | nil => rfl
  | cons d ds ih => rw [List.foldl_cons, ih, processDiff_last_dt]

/-- A job whose base snapshot is present but unparsable makes the whole
fold fail, wherever it sits in the run. -/
theorem foldJobs_abort (t : Int) (ds' : List (Int × List Diff)) (jobs : List JobFiles)
    (hm : (⟨some (t, none), ds'⟩ : JobFiles) ∈ jobs) :
    ∀ acc, List.foldlM processJob acc jobs = none := by
  induction jobs with
  | nil => exact absurd hm (List.not_mem_nil _)
  | cons hd tl ih =>
    intro acc
    rw [List.foldlM_cons]
    rcases List.mem_cons.mp hm with rfl | hmem
    · rfl
    · cases hpj : processJob acc hd with
      | none => rfl
      | some acc1 =>
        exact ih hmem acc1

/-- A sample base snapshot row used by the concrete instances below. -/
def sampleRow : SqueueRow :=
  { job_id := "j1", command := "/usr/bin/run.sh", work_dir := "/wd", cpus := 4,
    min_cpus := 1, nodes := "n1", min_memory := "1G", submit_time := 100,
    start_time := none, end_time := none, state := JobState.PENDING, account := "a1",
    group := "g1", partition := "p1", exec_host := none, dependency := none,
    features := none, array_job_id := none, step_job_id := none,
    time_limit := none, name := "job-one", priority := 0, reason := none }

/-- A per-job replay state over an empty run accumulator, used by the
concrete instances below. -/
def plainAcc : DeltaAcc :=
  ⟨⟨[], [], [], [], [], [], []⟩, sampleRow, none, 100⟩

/-- Delta-mode input in which the start-time delta is replayed in a
delta file strictly before the file carrying the RUNNING transition. -/
def c1Input : List JobFiles :=
  [⟨some (100, some sampleRow),
    [(101, [Diff.start_time (some 101)]), (102, [Diff.state JobState.RUNNING])]⟩]

/-- C1 counterexample: job j1 starts PENDING, its delta stream contains
a PENDING-to-RUNNING transition and a start-time value, yet when the
start-time delta is replayed before the RUNNING transition the run
produces NO Job Started event at all (count 0, not the claimed exactly
one): the start_time handler drops the value while the replayed state
is still PENDING, and the RUNNING arm is ignored. -/
theorem C1_counterexample :
    (extract_oced_delta c1Input).map
        (fun l => (evFilter "Job Started" "j1" l.events).length) = some 0 ∧
    ¬ (extract_oced_delta c1Input).map
        (fun l => (evFilter "Job Started" "j1" l.events).length) = some 1 := by
  decide

/-- C1 (amended): for a job whose base snapshot is PENDING, the run
produces exactly one Job Started event, timestamped with the known
start time, when the start-time delta is replayed in the same delta
entry as or any entry after the RUNNING transition; when it is replayed
in an earlier entry (while the replayed state is still PENDING) it is
dropped and no Started event is produced.  In every run, every job
yields at most one Started event. -/
theorem C1_amended (r : SqueueRow) (hr : r.state = JobState.PENDING) (t0 t1 t2 T : Int) :
    ((extract_oced_delta [⟨some (t0, some r),
        [(t1, [Diff.state JobState.RUNNING]), (t2, [Diff.start_time (some T)])]⟩]).map
      (fun l => (evFilter "Job Started" r.job_id l.events).map (fun e => e.time)) = some [T]) ∧
    ((extract_oced_delta [⟨some (t0, some r),
        [(t1, [Diff.state JobState.RUNNING, Diff.start_time (some T)])]⟩]).map
      (fun l => (evFilter "Job Started" r.job_id l.events).map (fun e => e.time)) = some [T]) ∧
    ((extract_oced_delta [⟨some (t0, some r),
        [(t1, [Diff.start_time (some T)]), (t2, [Diff.state JobState.RUNNING])]⟩]).map
      (fun l => (evFilter "Job Started" r.job_id l.events).map (fun e => e.time)) = some []) ∧
    (∀ jobs : List JobFiles, (jobs.filterMap baseIdOf).Nodup →
      ∀ jb ∈ jobs, ∀ r', baseRowOf jb = some r' →
      ∀ res, extract_oced_delta jobs = some res →
      (evFilter "Job Started" r'.job_id res.events).length ≤ 1) := by
  refine ⟨?_, ?_, ?_, ?_⟩
  · simp +decide [extract_oced_delta, processJob, processJobRow, preDeltaAcc, jobEntitySets,
      processEntry, processDiff, apply_mut, applyDiff, evFilter, isForJob,
      submitEventOf, start0Of, jobObject_id, hr]
  · simp +decide [extract_oced_delta, processJob, processJobRow, preDeltaAcc, jobEntitySets,
      processEntry, processDiff, apply_mut, applyDiff, evFilter, isForJob,
      submitEventOf, start0Of, jobObject_id, hr]
  · simp +decide [extract_oced_delta, processJob, processJobRow, preDeltaAcc, jobEntitySets,
      processEntry, processDiff, apply_mut, applyDiff, evFilter, isForJob,
      submitEventOf, start0Of, jobObject_id, hr]
  · intro jobs hnd jb hjb r' hr' res hres
    obtain ⟨acc', hf, hev, _, _⟩ := extract_oced_delta_some jobs res hres
    obtain ⟨_, _, hstart⟩ := foldJobs_member jb r' hr' jobs _ acc' hf hnd hjb
    rw [hev]
    simpa [evFilter] using hstart

/-- C1 witness: the amended claim evaluated with the sample PENDING row
and concrete timestamps; the RUNNING transition at 101 followed by a
start-time delta carrying 101 yields exactly one Started event at 101. -/
theorem C1_witness :
    sampleRow.state = JobState.PENDING ∧
    (extract_oced_delta [⟨some (100, some sampleRow),
        [(101, [Diff.state JobState.RUNNING]), (102, [Diff.start_time (some 101)])]⟩]).map
      (fun l => (evFilter "Job Started" sampleRow.job_id l.events).map (fun e => e.time)) =
      some [101] :=
  ⟨rfl, (C1_amended sampleRow rfl 100 101 102 101).1⟩

/-- Delta-mode input whose only delta moves the job to RUNNING with no
start time ever arriving. -/
def c2Input : List JobFiles :=
  [⟨some (100, some sampleRow), [(105, [Diff.state JobState.RUNNING])]⟩]

/-- C2 counterexample: job j1 transitions PENDING-to-RUNNING at
observed time 105 with no start time known; the claim requires a
Started event timestamped 105, but the code emits NO Started event at
all: the RUNNING arm of the state handler sets `ignore` and no
fallback to the transition time exists. -/
theorem C2_counterexample :
    (extract_oced_delta c2Input).map
        (fun l => (evFilter "Job Started" "j1" l.events).length) = some 0 ∧
    ¬ (extract_oced_delta c2Input).map
        (fun l => (evFilter "Job Started" "j1" l.events).length) = some 1 := by
  decide

/-- C2 (amended): a Started event exists only once a start time is
known: a job whose base snapshot is already RUNNING with a known start
time `s0` gets exactly one Started event timestamped `s0`; a later
start-time delta carrying `s1` re-timestamps that same event (same
identifier, still exactly one event) in place rather than creating a
second one.  A RUNNING transition alone, without a known start time,
emits nothing (the counterexample); there is no fallback to the
transition-observation time. -/
theorem C2_amended (r : SqueueRow) (hr : r.state = JobState.RUNNING) (s0 : Int)
    (hs : r.start_time = some s0) (t0 t1 s1 : Int) :
    ((extract_oced_delta [⟨some (t0, some r), [(t1, [Diff.start_time (some s1)])]⟩]).map
      (fun l => (evFilter "Job Started" r.job_id l.events).map (fun e => e.time)) =
      some [s1]) ∧
    ((extract_oced_delta [⟨some (t0, some r), []⟩]).map
      (fun l => (evFilter "Job Started" r.job_id l.events).map (fun e => e.time)) =
      some [s0]) ∧
    ((extract_oced_delta [⟨some (t0, some r), [(t1, [Diff.start_time (some s1)])]⟩]).map
      (fun l => (evFilter "Job Started" r.job_id l.events).map (fun e => e.id)) =
     (extract_oced_delta [⟨some (t0, some r), []⟩]).map
      (fun l => (evFilter "Job Started" r.job_id l.events).map (fun e => e.id))) := by
  refine ⟨?_, ?_, ?_⟩ <;>
    simp +decide [extract_oced_delta, processJob, processJobRow, preDeltaAcc, jobEntitySets,
      processEntry, processDiff, apply_mut, applyDiff, evFilter, isForJob,
      submitEventOf, start0Of, jobObject_id, hr, hs]

/-- A base snapshot already RUNNING with a known start time. -/
def runningRow : SqueueRow :=
  { sampleRow with state := JobState.RUNNING, start_time := some 100 }

/-- C2 witness: the amended claim evaluated on a RUNNING base snapshot
with start time 100 and one later start-time delta carrying 103. -/
theorem C2_witness :
    runningRow.state = JobState.RUNNING ∧
    runningRow.start_time = some 100 ∧
    (extract_oced_delta [⟨some (100, some runningRow),
        [(101, [Diff.start_time (some 103)])]⟩]).map
      (fun l => (evFilter "Job Started" runningRow.job_id l.events).map (fun e => e.time)) =
      some [103] :=
  ⟨rfl, rfl, (C2_amended runningRow rfl 100 rfl 100 101 103).1⟩

/-- Snapshot-mode input in which the same job is observed twice with
different submit times (5, then 7). -/
def c3SnapData : List (Int × List SqueueRow) :=
  [(0, [{ sampleRow with submit_time := 5 }]),
   (1, [{ sampleRow with submit_time := 7 }])]

/-- C3 counterexample: in snapshot mode, job j1's earliest observation
carries submit time 5 and its latest carries 7; the single Submit Job
event is timestamped 7 — the submit time of the LAST observation, not
of the earliest one as claimed (`rows.last()` at line 170). -/
theorem C3_counterexample :
    (extract_ocel c3SnapData).map
        (fun l => (evFilter "Submit Job" "j1" l.events).map (fun e => e.time)) = some [7] ∧
    ¬ (extract_ocel c3SnapData).map
        (fun l => (evFilter "Submit Job" "j1" l.events).map (fun e => e.time)) = some [5] := by
  decide

/-- C3 (amended): in delta mode, every job whose base snapshot parses
gets exactly one Submit Job event, timestamped with the submit time of
its base (earliest) observation, provided base job identifiers are
pairwise distinct; in snapshot mode the single Submit event is instead
timestamped from the job's latest observation (the counterexample). -/
theorem C3_amended (jobs : List JobFiles) (hnd : (jobs.filterMap baseIdOf).Nodup)
    (jb : JobFiles) (hjb : jb ∈ jobs) (r : SqueueRow) (hr : baseRowOf jb = some r)
    (res : ExtractResult) (hres : extract_oced_delta jobs = some res) :
    ∃ e, evFilter "Submit Job" r.job_id res.events = [e] ∧
      e.time = r.submit_time ∧ e.event_type = "Submit Job" := by
  obtain ⟨acc', hf, hev, _, _⟩ := extract_oced_delta_some jobs res hres
  obtain ⟨⟨e, he, ht, hty⟩, _, _⟩ := foldJobs_member jb r hr jobs _ acc' hf hnd hjb
  refine ⟨e, ?_, ht, hty⟩
  rw [hev, he]
  simp [evFilter]

/-- A one-job delta-mode run used by the C3 witness. -/
def c3Jobs : List JobFiles := [⟨some (100, some sampleRow), []⟩]

/-- C3 witness: the amended claim evaluated on a one-job run whose base
snapshot was submitted at 100. -/
theorem C3_witness :
    (c3Jobs.filterMap baseIdOf).Nodup ∧
    ∃ e, evFilter "Submit Job" "j1"
        ((extract_oced_delta c3Jobs).getD ⟨[], [], []⟩).events = [e] ∧
      e.time = 100 ∧ e.event_type = "Submit Job" :=
  ⟨by decide, C3_amended c3Jobs (by decide) ⟨some (100, some sampleRow), []⟩ (by decide)
    sampleRow (by decide) ((extract_oced_delta c3Jobs).getD ⟨[], [], []⟩) rfl⟩

/-- Delta-mode input whose raw job identifier collides with the
qualified identifier of its own account. -/
def c4Jobs : List JobFiles :=
  [⟨some (100, some { sampleRow with job_id := "acc_x", account := "x" }), []⟩]

/-- C4 counterexample: in delta mode the job object keeps its raw id
`acc_x` while the account `x` becomes object `acc_x`; the produced log
contains two objects with the same identifier, and the extraction still
completes and exports it — no verification runs and no fatal error is
raised on the delta path (the source's only asserts are in
`extract_ocel`, lines 310-316). -/
theorem C4_counterexample :
    (extract_oced_delta c4Jobs).map
        (fun l => decide ((l.objects.map (fun o => o.id)).Nodup)) = some false ∧
    extract_oced_delta c4Jobs ≠ none := by
  decide

/-- C4 (amended): only the snapshot path verifies the log before
export: when `extract_ocel` returns a log, all object identifiers are
globally distinct (stronger than per-type) and all event identifiers
are distinct, because the two asserts run before the export and panic
otherwise; relationship targets are never checked, and the delta path
exports without any verification (the counterexample). -/
theorem C4_amended (data : List (Int × List SqueueRow)) (res : ExtractResult)
    (h : extract_ocel data = some res) :
    (res.objects.map (fun o => o.id)).Nodup ∧ (res.events.map (fun e => e.id)).Nodup := by
  simp only [extract_ocel] at h
  split at h
  case isTrue hcond =>
    cases h
    exact hcond
  case isFalse hcond => cases h

/-- A one-snapshot input used by the C4 witness. -/
def c4SnapData : List (Int × List SqueueRow) := [(0, [sampleRow])]

/-- C4 witness: the amended claim evaluated on a one-snapshot run. -/
theorem C4_witness :
    ((((extract_ocel c4SnapData).getD ⟨[], [], []⟩).objects.map (fun o => o.id)).Nodup ∧
      (((extract_ocel c4SnapData).getD ⟨[], [], []⟩).events.map (fun e => e.id)).Nodup) :=
  C4_amended c4SnapData ((extract_ocel c4SnapData).getD ⟨[], [], []⟩) rfl

/-- Snapshot-mode input in which an account and a group carry the same
raw name. -/
def c5SnapData : List (Int × List SqueueRow) :=
  [(0, [{ sampleRow with account := "x", group := "x" }])]

/-- C5 counterexample: in snapshot mode no identifier is
type-qualified: an account named `x` and a group named `x` are
assembled as two objects with the SAME identifier `x`, so the produced
object identifiers are not distinct (and export is then refused by the
uniqueness assert). -/
theorem C5_counterexample :
    (extract_ocel_objects c5SnapData).map (fun o => o.id) = ["j1", "x", "x", "p1"] ∧
    ¬ ((extract_ocel_objects c5SnapData).map (fun o => o.id)).Nodup ∧
    extract_ocel c5SnapData = none := by
  decide

/-- C5 (amended): type-qualification holds only on the delta path and
only for entity objects: in every exported delta-mode log, each object
is either a Job object (raw, unqualified job id) or an Account, Group,
Partition or Host object whose identifier is its kind tag (`acc_`,
`group_`, `part_`, `host_`) prepended to the raw name; in snapshot mode
identifiers are raw for all kinds (the counterexample). -/
theorem C5_amended (jobs : List JobFiles) (res : ExtractResult)
    (h : extract_oced_delta jobs = some res) :
    ∀ o ∈ res.objects, o.object_type = "Job" ∨
      (o.object_type = "Account" ∧ ∃ a, o.id = "acc_" ++ a) ∨
      (o.object_type = "Group" ∧ ∃ a, o.id = "group_" ++ a) ∨
      (o.object_type = "Partition" ∧ ∃ a, o.id = "part_" ++ a) ∨
      (o.object_type = "Host" ∧ ∃ a, o.id = "host_" ++ a) := by
  obtain ⟨acc', hf, _, hobj, _⟩ := extract_oced_delta_some jobs res h
  intro o ho
  rw [hobj] at ho
  rcases List.mem_append.mp ho with h1 | h2
  · rcases foldJobs_objects jobs _ acc' hf o h1 with h3 | h3
    · exact absurd h3 (List.not_mem_nil o)
    · exact Or.inl h3
  · exact Or.inr (entityObjects_mem acc' o h2)

/-- A one-job delta-mode run used by the C5 witness. -/
def c5Jobs : List JobFiles := [⟨some (100, some sampleRow), []⟩]

/-- C5 witness: the amended claim evaluated at the Account object of a
one-job delta-mode run; its identifier is `acc_` prepended to the raw
account name `a1`. -/
theorem C5_witness :
    (OCELObject.mk "acc_a1" "Account" [] []).object_type = "Job" ∨
    ((OCELObject.mk "acc_a1" "Account" [] []).object_type = "Account" ∧
      ∃ a, (OCELObject.mk "acc_a1" "Account" [] []).id = "acc_" ++ a) ∨
    ((OCELObject.mk "acc_a1" "Account" [] []).object_type = "Group" ∧
      ∃ a, (OCELObject.mk "acc_a1" "Account" [] []).id = "group_" ++ a) ∨
    ((OCELObject.mk "acc_a1" "Account" [] []).object_type = "Partition" ∧
      ∃ a, (OCELObject.mk "acc_a1" "Account" [] []).id = "part_" ++ a) ∨
    ((OCELObject.mk "acc_a1" "Account" [] []).object_type = "Host" ∧
      ∃ a, (OCELObject.mk "acc_a1" "Account" [] []).id = "host_" ++ a) :=
  C5_amended c5Jobs ((extract_oced_delta c5Jobs).getD ⟨[], [], []⟩) rfl
    (OCELObject.mk "acc_a1" "Account" [] []) (by decide)

/-- Delta-mode input whose state deltas reach COMPLETED twice. -/
def c6Jobs : List JobFiles :=
  [⟨some (100, some sampleRow),
    [(101, [Diff.state JobState.COMPLETED]), (102, [Diff.state JobState.FAILED]),
     (103, [Diff.state JobState.COMPLETED])]⟩]

/-- C6 counterexample: a delta stream that sets COMPLETED, then FAILED,
then COMPLETED again produces TWO Job Completed events for job j1 —
the claimed at-most-one does not hold over every possible sequence of
state deltas, because nothing deduplicates repeated terminal
transitions. -/
theorem C6_counterexample :
    (extract_oced_delta c6Jobs).map
        (fun l => (evFilter "Job Completed" "j1" l.events).length) = some 2 ∧
    ¬ (extract_oced_delta c6Jobs).map
        (fun l => (evFilter "Job Completed" "j1" l.events).length) = some 1 := by
  decide

/-- C6 (amended): for every job and every terminal state, the number of
terminal events of that category produced for the job equals the number
of state deltas in the job's delta files that set exactly that state —
so at most one such event exists precisely when the stream sets that
terminal state at most once; repetitions are not deduplicated. -/
theorem C6_amended (jobs : List JobFiles) (hnd : (jobs.filterMap baseIdOf).Nodup)
    (jb : JobFiles) (hjb : jb ∈ jobs) (r : SqueueRow) (hr : baseRowOf jb = some r)
    (c : JobState) (ty : String) (hc : terminalEventType c = some ty)
    (res : ExtractResult) (hres : extract_oced_delta jobs = some res) :
    (evFilter ty r.job_id res.events).length = termDeltaCount c jb.deltas := by
  obtain ⟨acc', hf, hev, _, _⟩ := extract_oced_delta_some jobs res hres
  obtain ⟨_, hterm, _⟩ := foldJobs_member jb r hr jobs _ acc' hf hnd hjb
  rw [hev, hterm c ty hc]
  simp [evFilter]

/-- A one-job run with a single COMPLETED delta, used by the C6
witness. -/
def c6wJobs : List JobFiles :=
  [⟨some (100, some sampleRow), [(101, [Diff.state JobState.COMPLETED])]⟩]

/-- C6 witness: the amended claim evaluated for COMPLETED on a run with
exactly one COMPLETED state delta: exactly one Job Completed event. -/
theorem C6_witness :
    terminalEventType JobState.COMPLETED = some "Job Completed" ∧
    (evFilter "Job Completed" "j1"
        ((extract_oced_delta c6wJobs).getD ⟨[], [], []⟩).events).length =
      termDeltaCount JobState.COMPLETED
        [(101, [Diff.state JobState.COMPLETED])] :=
  ⟨rfl, C6_amended c6wJobs (by decide)
    ⟨some (100, some sampleRow), [(101, [Diff.state JobState.COMPLETED])]⟩ (by decide)
    sampleRow (by decide) JobState.COMPLETED "Job Completed" rfl
    ((extract_oced_delta c6wJobs).getD ⟨[], [], []⟩) rfl⟩

/-- C7: when a delta file's timestamp strictly precedes the job's
last-applied timestamp, a temporal-inversion warning carrying the job
id and both timestamps is recorded, the delta is still applied to the
replayed row, and processing continues (the entry is fully processed
and the last-applied timestamp advances to the entry's). -/
theorem C7_temporal_inversion (oid : String) (s : DeltaAcc) (dt : Int) (ds : List Diff)
    (h : dt < s.last_dt) :
    (∃ tw, (processEntry oid s (dt, ds)).acc.warnings =
      s.acc.warnings ++ [Warning.backwards oid s.last_dt dt] ++ tw) ∧
    (processEntry oid s (dt, ds)).row = apply_mut s.row ds ∧
    (processEntry oid s (dt, ds)).last_dt = dt := by
  obtain ⟨hrow, _, _, ⟨tw, htw⟩, _⟩ := processEntry_spec oid s (dt, ds)
  refine ⟨⟨tw, ?_⟩, hrow, ?_⟩
  · rw [htw, if_pos h]
  · rw [processEntry_eq, foldDiffs_last_dt]

/-- C7 witness: a delta file dated 50 replayed when the last-applied
timestamp is 100 yields the backwards warning with both timestamps,
and its state delta is still applied. -/
theorem C7_witness :
    (50 : Int) < plainAcc.last_dt ∧
    ((∃ tw, (processEntry "j1" plainAcc (50, [Diff.state JobState.RUNNING])).acc.warnings =
      plainAcc.acc.warnings ++ [Warning.backwards "j1" plainAcc.last_dt 50] ++ tw) ∧
    (processEntry "j1" plainAcc (50, [Diff.state JobState.RUNNING])).row =
      apply_mut plainAcc.row [Diff.state JobState.RUNNING] ∧
    (processEntry "j1" plainAcc (50, [Diff.state JobState.RUNNING])).last_dt = 50) :=
  ⟨by decide, C7_temporal_inversion "j1" plainAcc 50 [Diff.state JobState.RUNNING] (by decide)⟩

/-- C8: a state delta back to PENDING, or to an unrecognized OTHER
label, adds no event to the log, leaves the pending Started event
untouched, and records exactly one warning; all previously assembled
events are unaffected. -/
theorem C8_suppressed_transitions (oid : String) (dt : Int) (s : DeltaAcc) (lbl : String) :
    (processDiff oid dt s (Diff.state JobState.PENDING)).acc.events = s.acc.events ∧
    (processDiff oid dt s (Diff.state JobState.PENDING)).acc.warnings =
      s.acc.warnings ++ [Warning.toPending oid] ∧
    (processDiff oid dt s (Diff.state JobState.PENDING)).start_ev = s.start_ev ∧
    (processDiff oid dt s (Diff.state (JobState.OTHER lbl))).acc.events = s.acc.events ∧
    (processDiff oid dt s (Diff.state (JobState.OTHER lbl))).acc.warnings =
      s.acc.warnings ++ [Warning.toOther oid lbl] ∧
    (processDiff oid dt s (Diff.state (JobState.OTHER lbl))).start_ev = s.start_ev := by
  simp [processDiff, addWarn]

/-- Delta-mode input whose first job carries an unparsable base
snapshot and whose second job is fully well-formed. -/
def c9Jobs : List JobFiles :=
  [⟨some (0, none), []⟩,
   ⟨some (100, some sampleRow),
    [(101, [Diff.state JobState.RUNNING, Diff.start_time (some 101)])]⟩]

/-- C9 counterexample: a malformed base snapshot is NOT fatal to that
job only: the whole extraction aborts (the `unwrap` panics) and the
perfectly well-formed second job contributes nothing — no log is
produced at all, contrary to the claim that every other job completes
and contributes. -/
theorem C9_counterexample : extract_oced_delta c9Jobs = none := by decide

/-- C9 (amended): a job with NO files at all is silently skipped — the
accumulator is returned unchanged, so the rest of the run completes,
but no anomaly is recorded; a job whose base snapshot is present but
unparsable aborts the ENTIRE extraction (panic), wherever it sits in
the run, and no log is produced. -/
theorem C9_amended (acc : ExtractAcc) (t : Int) (ds ds' : List (Int × List Diff)) :
    processJob acc ⟨none, ds⟩ = some acc ∧
    processJob acc ⟨some (t, none), ds'⟩ = none ∧
    (∀ jobs : List JobFiles, (⟨some (t, none), ds'⟩ : JobFiles) ∈ jobs →
      extract_oced_delta jobs = none) := by
  refine ⟨rfl, rfl, ?_⟩
  intro jobs hm
  rw [extract_oced_delta_bind, foldJobs_abort t ds' jobs hm _]
  rfl

/-- C10: a delta file none of whose field-level changes touches state
or start_time adds no event to the log and leaves the pending Started
event (its timestamp included) untouched: only state and start_time
deltas can create or modify events. -/
theorem C10_frame_effect (oid : String) (s : DeltaAcc) (dt : Int) (ds : List Diff)
    (h : ∀ d ∈ ds, touchesEvents d = false) :
    (processEntry oid s (dt, ds)).acc.events = s.acc.events ∧
    (processEntry oid s (dt, ds)).start_ev = s.start_ev := by
  rw [processEntry_eq]
  exact foldDiffs_frame oid dt ds _ h

/-- C10 witness: a delta file changing only command, priority and
end_time adds no event and leaves the pending Started event unchanged. -/
theorem C10_witness :
    (∀ d ∈ [Diff.command "x", Diff.priority 5, Diff.end_time (some 7)],
      touchesEvents d = false) ∧
    ((processEntry "j1" plainAcc
        (60, [Diff.command "x", Diff.priority 5, Diff.end_time (some 7)])).acc.events =
      plainAcc.acc.events ∧
    (processEntry "j1" plainAcc
        (60, [Diff.command "x", Diff.priority 5, Diff.end_time (some 7)])).start_ev =
      plainAcc.start_ev) :=
  ⟨by decide, C10_frame_effect "j1" plainAcc 60
    [Diff.command "x", Diff.priority 5, Diff.end_time (some 7)] (by decide)⟩

end RustSlurm
